import Mathlib

/-!
# Verification of the py-nestedtext core (`src/nestedtext.py`)

Shallow embedding of the NestedText decoder/encoder in `src/nestedtext.py`
(the rewrite under the `src/` directory: `_LinesIter`, `_Parser`, `loads`,
`dumps`).  Python strings are modelled as Lean `String` manipulated through
their character lists; Python `None` payloads appear explicitly
(`LineValue.absent`, `Value.null`); exceptions become `Except`.  The
recursive-descent parser is expressed with an explicit fuel parameter so that
every definition is executable and kernel-reducible; `loads` supplies fuel
that dominates the recursion depth of the Python original.

Whitespace is modelled by the ASCII whitespace characters recognised by
Python's `str.strip`/`\s` (space, tab, LF, CR, VT, FF), which covers every
input this development evaluates.
-/

set_option maxHeartbeats 4000000
set_option maxRecDepth 4000

namespace NT

/-- Characters stripped by Python `str.strip()` / matched by `\s` (ASCII part). -/
def pyIsSpace (c : Char) : Bool :=
  c = ' ' || c = '\t' || c = '\n' || c = '\r' || c = '\x0b' || c = '\x0c'

/-- Characters stripped by `rstrip("\r\n")`. -/
def isCRLF (c : Char) : Bool :=
  c = '\r' || c = '\n'

/-- Python `s.rstrip(chars)`: drop trailing characters satisfying `p`. -/
def rstripBy (p : Char → Bool) (cs : List Char) : List Char :=
  (cs.reverse.dropWhile p).reverse

def ofChars (cs : List Char) : String :=
  String.mk cs

/-- Python `"".join(data)`. -/
def joinAll (l : List String) : String :=
  ofChars (l.foldr (fun s acc => s.data ++ acc) [])

/-- `_LineType` from the source. -/
inductive LineType where
  | BLANK
  | COMMENT
  | STRING
  | LIST_ITEM
  | OBJECT_ITEM
  | OBJECT_KEY
  | INLINE_CONTAINER
deriving DecidableEq, Repr

/-- `_LineType.is_ignorable`. -/
def LineType.is_ignorable : LineType → Bool
  | .BLANK => true
  | .COMMENT => true
  | _ => false

/-- The `value` field of a `_Line`: Python `None`, a string, or the
`(key, value-or-None)` tuple of an object item. -/
inductive LineValue where
  | absent
  | str (s : String)
  | pair (key : String) (val : Option String)
deriving DecidableEq, Repr

/-- `_Line` from the source. -/
structure Line where
  text : String
  lineno : Nat
  kind : LineType
  depth : Nat
  value : LineValue
deriving DecidableEq, Repr

/-- `_InvalidLineType` from the source. -/
inductive InvalidLineType where
  | NON_SPACE_INDENT
  | UNRECOGNISED
deriving DecidableEq, Repr

/-- `_InvalidLine` from the source. -/
structure InvalidLine where
  text : String
  lineno : Nat
  kind : InvalidLineType
  colno : Nat
deriving DecidableEq, Repr

/-- A classified raw line: the union `_Line | _InvalidLine` produced by
`_LinesIter._read_line`. -/
inductive RawLine where
  | content (l : Line)
  | invalid (i : InvalidLine)
deriving DecidableEq, Repr

/-- `NestedtextError(message, lineno, colno)`; the embedding keeps the three
components separate (the Python class also appends the coordinates to the
message text, and stores them as attributes). -/
structure NestedtextError where
  message : String
  lineno : Option Nat
  colno : Option Nat
deriving DecidableEq, Repr

/-- Line-number-free part of `_LinesIter._read_line`. -/
inductive ClassRes where
  | content (kind : LineType) (depth : Nat) (value : LineValue)
  | invalid (kind : InvalidLineType) (colno : Nat)
deriving DecidableEq, Repr

/-- One backtracking step of `re.fullmatch(r"(?P<key>.+?)\s*:(?: (?P<value>.*))?", s)`
for a fixed key candidate: skip `\s*`, require `:`, then either end of input
(no inline value) or a single space followed by the value. -/
def obj_item_check (key : List Char) (rest : List Char) : Option (String × Option String) :=
  match rest.dropWhile pyIsSpace with
  | ':' :: r2 =>
    match r2 with
    | [] => some (ofChars key, Option.none)
    | ' ' :: v => if v.contains '\n' then Option.none else some (ofChars key, some (ofChars v))
    | _ => Option.none
  | _ => Option.none

/-- Lazy (`.+?`) scan over key candidates, shortest first; the key group of
the regex cannot cross a newline. -/
def obj_item_scan (keyAcc : List Char) : List Char → Option (String × Option String)
  | [] => Option.none
  | c :: rest =>
    if c = '\n' then Option.none
    else
      match obj_item_check (keyAcc ++ [c]) rest with
      | some r => some r
      | Option.none => obj_item_scan (keyAcc ++ [c]) rest

/-- `re.sub(r"X ?", "", s, count=1)` for a sigil character `X`: remove the
first occurrence of the sigil and at most one immediately following space. -/
def sub_sigil (sigil : Char) : List Char → List Char
  | [] => []
  | c :: cs =>
    if c = sigil then
      match cs with
      | ' ' :: r => r
      | _ => cs
    else c :: sub_sigil sigil cs

/-- `- VALUE` payload: `stripped[2:] or None`. -/
def list_item_val (cs : List Char) : LineValue :=
  if cs.isEmpty then .absent else .str (ofChars cs)

/-- `_LinesIter._read_line` without the line number: classify one raw line
(including its terminator, if any). -/
def classify_chars (lineCs : List Char) : ClassRes :=
  if lineCs.all pyIsSpace then .content .BLANK 0 .absent
  else
    let text := rstripBy isCRLF lineCs
    if (text.dropWhile pyIsSpace).head? = some '#' then
      .content .COMMENT 0 (.str (ofChars (text.dropWhile pyIsSpace).tail))
    else
      let stripped := text.dropWhile (fun c => c = ' ')
      let depth := text.length - stripped.length
      if (stripped.dropWhile pyIsSpace).length < stripped.length then
        .invalid .NON_SPACE_INDENT depth
      else if stripped = ['-'] || stripped.take 2 = ['-', ' '] then
        .content .LIST_ITEM depth (list_item_val (stripped.drop 2))
      else if stripped = ['>'] || stripped.take 2 = ['>', ' '] then
        .content .STRING depth (.str (ofChars (sub_sigil '>' (lineCs.dropWhile (fun c => c = ' ')))))
      else if stripped = [':'] || stripped.take 2 = [':', ' '] then
        .content .OBJECT_KEY depth (.str (ofChars (sub_sigil ':' (lineCs.dropWhile (fun c => c = ' ')))))
      else if stripped.head? = some '[' || stripped.head? = some '\x7b' then
        .content .INLINE_CONTAINER depth (.str (ofChars stripped))
      else
        match obj_item_scan [] stripped with
        | some (k, v) => .content .OBJECT_ITEM depth (.pair k v)
        | Option.none => .invalid .UNRECOGNISED depth

/-- `_LinesIter._read_line`. -/
def read_line (line : String) (lineno : Nat) : RawLine :=
  match classify_chars line.data with
  | .content k d v => .content ⟨line, lineno, k, d, v⟩
  | .invalid k c => .invalid ⟨line, lineno, k, c⟩

/-- Iterating an `io.StringIO` (its default `newline='\n'`): pieces end after
each `'\n'`; a final piece without terminator is kept; `'\r'` alone does not
end a line. -/
def split_lines_aux (acc : List Char) : List Char → List (List Char)
  | [] => if acc.isEmpty then [] else [acc.reverse]
  | c :: cs =>
    if c = '\n' then (acc.reverse ++ ['\n']) :: split_lines_aux [] cs
    else split_lines_aux (c :: acc) cs

def split_lines (s : String) : List String :=
  (split_lines_aux [] s.data).map ofChars

/-- `_LinesIter._read_lines`: classify each raw line with 1-based numbers. -/
def classify_lines (rawLines : List String) : List RawLine :=
  rawLines.enum.map (fun p => read_line p.2 (p.1 + 1))

/-- The classified lines of a whole document as `loads` sees them. -/
def classify_doc (content : String) : List RawLine :=
  classify_lines (split_lines content)

/-- `_LinesIter._advance_to_next_content_line`: skip ignorable lines, raise
`"invalid line"` on an `_InvalidLine`, return the next content line (if any)
together with the unconsumed tail. -/
def advance_to_next_content_line :
    List RawLine → Except NestedtextError (Option Line × List RawLine)
  | [] => .ok (Option.none, [])
  | .invalid i :: _ => .error ⟨"invalid line", some i.lineno, some i.colno⟩
  | .content l :: rest =>
    if l.kind.is_ignorable then advance_to_next_content_line rest
    else .ok (some l, rest)

/-- The `_LinesIter` state after construction: one lookahead slot plus the
unread classified lines. -/
structure LStream where
  look : Option Line
  rest : List RawLine
deriving Repr

/-- `_LinesIter.peek_next`. -/
def peek_next (s : LStream) : Option Line :=
  s.look

/-- `next(lines)`: return the lookahead and refill it by advancing; on empty
lookahead Python raises `StopIteration`, which no caller in the parser ever
triggers, so the embedding returns the unchanged stream. -/
def stream_next (s : LStream) : Except NestedtextError (Option Line × LStream) :=
  match s.look with
  | Option.none => .ok (Option.none, s)
  | some l =>
    match advance_to_next_content_line s.rest with
    | .error e => .error e
    | .ok (n, r) => .ok (some l, ⟨n, r⟩)

/-- `_indentation_error(line, depth)`. -/
def indentation_error (l : Line) (depth : Nat) : NestedtextError :=
  ⟨"invalid indentation", some l.lineno, some depth⟩

/-- Artefact of the fuel-based embedding; `loads` supplies enough fuel that
this value is never produced for it. -/
def fuel_exhausted : NestedtextError :=
  ⟨"embedding fuel exhausted", Option.none, Option.none⟩

/-- `DuplicateFieldBehaviour`. -/
inductive DuplicateFieldBehaviour where
  | USE_FIRST
  | USE_LAST
  | ERROR
deriving DecidableEq, Repr

/-- The NestedText value tree; `null` is Python `None` (both the absent value
returned for empty documents and the result of the unimplemented inline
parsers). -/
inductive Value where
  | str (s : String)
  | list (items : List Value)
  | obj (items : List (String × Value))
  | null
deriving Repr

/-- Replace the value stored under a key, keeping its position. -/
def set_in_place (k : String) (v : Value) : List (String × Value) → List (String × Value)
  | [] => []
  | (a, b) :: t =>
    if a = k then (a, v) :: set_in_place k v t else (a, b) :: set_in_place k v t

/-- `data[key] = value` on an insertion-ordered dict: replace in place if the
key is present, else append. -/
def dict_set (data : List (String × Value)) (k : String) (v : Value) :
    List (String × Value) :=
  if (data.map Prod.fst).contains k then set_in_place k v data
  else data ++ [(k, v)]

/-- The duplicate-key handling plus assignment at the bottom of
`_Parser._read_object` (`if key in data: ...; data[key] = value`). -/
def dup_step (on_dup : DuplicateFieldBehaviour) (l : Line) (depth : Nat)
    (data : List (String × Value)) (k : String) (v : Value) :
    Except NestedtextError (List (String × Value)) :=
  if (data.map Prod.fst).contains k then
    match on_dup with
    | .USE_FIRST => .ok data
    | .USE_LAST => .ok (dict_set data k v)
    | .ERROR => .error ⟨"duplicate key", some l.lineno, some depth⟩
  else .ok (dict_set data k v)

/-- Payload string of a line (`line.value` where a `str` is expected). -/
def line_str : LineValue → String
  | .str s => s
  | _ => ""

/-- `data[-1] = data[-1].rstrip("\r\n"); return "".join(data)` — `None` when
`data` is empty (Python would raise `IndexError`; unreachable from `loads`). -/
def finalize_fragments (data : List String) : Option String :=
  match data.getLast? with
  | Option.none => Option.none
  | some last => some (joinAll (data.dropLast ++ [ofChars (rstripBy isCRLF last.data)]))

/-- Loop of `_Parser._read_string`. -/
def read_string_loop :
    Nat → LStream → Nat → List String → Except NestedtextError (List String × LStream)
  | 0, _, _, _ => .error fuel_exhausted
  | fuel+1, s, depth, data =>
    match peek_next s with
    | Option.none => .ok (data, s)
    | some l =>
      if l.kind = LineType.STRING then
        if depth ≤ l.depth then
          match stream_next s with
          | .error e => .error e
          | .ok (_, s1) =>
            let data1 := data ++ [line_str l.value]
            if l.depth ≠ depth then .error (indentation_error l depth)
            else read_string_loop fuel s1 depth data1
        else .ok (data, s)
      else .ok (data, s)

/-- `_Parser._read_string`. -/
def read_string (fuel : Nat) (s : LStream) (depth : Nat) :
    Except NestedtextError (Value × LStream) :=
  match read_string_loop fuel s depth [] with
  | .error e => .error e
  | .ok (data, s1) =>
    match finalize_fragments data with
    | Option.none => .error ⟨"list index out of range", Option.none, Option.none⟩
    | some str => .ok (.str str, s1)

/-- Loop of `_Parser._read_object_key`. -/
def read_object_key_loop :
    Nat → LStream → Nat → List String → Except NestedtextError (List String × LStream)
  | 0, _, _, _ => .error fuel_exhausted
  | fuel+1, s, depth, data =>
    match peek_next s with
    | Option.none => .ok (data, s)
    | some l =>
      if l.kind = LineType.OBJECT_KEY then
        if l.depth = depth then
          match stream_next s with
          | .error e => .error e
          | .ok (_, s1) => read_object_key_loop fuel s1 depth (data ++ [line_str l.value])
        else .ok (data, s)
      else .ok (data, s)

/-- `_Parser._read_object_key`. -/
def read_object_key (fuel : Nat) (s : LStream) (depth : Nat) :
    Except NestedtextError (String × LStream) :=
  match read_object_key_loop fuel s depth [] with
  | .error e => .error e
  | .ok (data, s1) =>
    match finalize_fragments data with
    | Option.none => .error ⟨"list index out of range", Option.none, Option.none⟩
    | some k => .ok (k, s1)

/-- `_Parser._read_inline_container`: consume the line; both
`_parse_inline_list` and `_parse_inline_object` are unimplemented (`pass`),
so the result is Python `None`. -/
def read_inline_container (s : LStream) : Except NestedtextError (Value × LStream) :=
  match stream_next s with
  | .error e => .error e
  | .ok (Option.none, _) => .error ⟨"StopIteration", Option.none, Option.none⟩
  | .ok (some l, s1) =>
    if l.kind = LineType.INLINE_CONTAINER then
      match (line_str l.value).data.head? with
      | some '[' => .ok (.null, s1)
      | some '\x7b' => .ok (.null, s1)
      | _ => .error ⟨"AssertionError", Option.none, Option.none⟩
    else .error ⟨"AssertionError", Option.none, Option.none⟩

/-- Python truthiness of a line payload (`if line.value:` / `if not value:`). -/
def truthy : LineValue → Bool
  | .absent => false
  | .str s => !s.data.isEmpty
  | .pair _ _ => true

/-- The mutually recursive heart of `_Parser`: `_read_value`, the loop of
`_read_list` and the loop of `_read_object`, merged into one fuel-indexed
function so that the recursion is structural. -/
inductive ParseCall where
  | value (s : LStream) (depth : Nat)
  | listLoop (s : LStream) (depth : Nat) (data : List Value)
  | objectLoop (s : LStream) (depth : Nat) (data : List (String × Value))

def run_read (on_dup : DuplicateFieldBehaviour) :
    Nat → ParseCall → Except NestedtextError (Value × LStream)
  | 0, _ => .error fuel_exhausted
  | fuel+1, .value s depth =>
    match peek_next s with
    | Option.none => .error ⟨"AttributeError", Option.none, Option.none⟩
    | some l =>
      if l.kind = LineType.STRING then read_string fuel s depth
      else if l.kind = LineType.LIST_ITEM then run_read on_dup fuel (.listLoop s depth [])
      else if l.kind = LineType.OBJECT_ITEM ∨ l.kind = LineType.OBJECT_KEY then
        run_read on_dup fuel (.objectLoop s depth [])
      else if l.kind = LineType.INLINE_CONTAINER then read_inline_container s
      else .error ⟨"unrecognized line", some l.lineno, Option.none⟩
  | fuel+1, .listLoop s depth data =>
    match peek_next s with
    | Option.none => .ok (.list data, s)
    | some l =>
      if depth ≤ l.depth then
        match stream_next s with
        | .error e => .error e
        | .ok (_, s1) =>
          if l.depth ≠ depth then .error (indentation_error l depth)
          else if l.kind ≠ LineType.LIST_ITEM then
            .error ⟨"expected list item", some l.lineno, some depth⟩
          else if truthy l.value then
            run_read on_dup fuel (.listLoop s1 depth (data ++ [Value.str (line_str l.value)]))
          else
            match peek_next s1 with
            | Option.none => run_read on_dup fuel (.listLoop s1 depth (data ++ [Value.str ""]))
            | some nl =>
              if depth < nl.depth then
                match run_read on_dup fuel (.value s1 nl.depth) with
                | .error e => .error e
                | .ok (v, s2) => run_read on_dup fuel (.listLoop s2 depth (data ++ [v]))
              else run_read on_dup fuel (.listLoop s1 depth (data ++ [Value.str ""]))
      else .ok (.list data, s)
  | fuel+1, .objectLoop s depth data =>
    match peek_next s with
    | Option.none => .ok (.obj data, s)
    | some l =>
      if depth ≤ l.depth then
        if l.depth ≠ depth then .error (indentation_error l depth)
        else if l.kind = LineType.OBJECT_ITEM then
          match stream_next s with
          | .error e => .error e
          | .ok (_, s1) =>
            match l.value with
            | .pair k inlv =>
              match inlv with
              | some vstr =>
                if !vstr.data.isEmpty then
                  match dup_step on_dup l depth data k (.str vstr) with
                  | .error e => .error e
                  | .ok data1 => run_read on_dup fuel (.objectLoop s1 depth data1)
                else
                  match peek_next s1 with
                  | Option.none =>
                    match dup_step on_dup l depth data k (.str "") with
                    | .error e => .error e
                    | .ok data1 => run_read on_dup fuel (.objectLoop s1 depth data1)
                  | some nl =>
                    if depth < nl.depth then
                      match run_read on_dup fuel (.value s1 nl.depth) with
                      | .error e => .error e
                      | .ok (v, s2) =>
                        match dup_step on_dup l depth data k v with
                        | .error e => .error e
                        | .ok data1 => run_read on_dup fuel (.objectLoop s2 depth data1)
                    else
                      match dup_step on_dup l depth data k (.str "") with
                      | .error e => .error e
                      | .ok data1 => run_read on_dup fuel (.objectLoop s1 depth data1)
              | Option.none =>
                match peek_next s1 with
                | Option.none =>
                  match dup_step on_dup l depth data k (.str "") with
                  | .error e => .error e
                  | .ok data1 => run_read on_dup fuel (.objectLoop s1 depth data1)
                | some nl =>
                  if depth < nl.depth then
                    match run_read on_dup fuel (.value s1 nl.depth) with
                    | .error e => .error e
                    | .ok (v, s2) =>
                      match dup_step on_dup l depth data k v with
                      | .error e => .error e
                      | .ok data1 => run_read on_dup fuel (.objectLoop s2 depth data1)
                  else
                    match dup_step on_dup l depth data k (.str "") with
                    | .error e => .error e
                    | .ok data1 => run_read on_dup fuel (.objectLoop s1 depth data1)
            | _ => .error ⟨"TypeError", Option.none, Option.none⟩
        else if l.kind = LineType.OBJECT_KEY then
          match read_object_key fuel s depth with
          | .error e => .error e
          | .ok (k, s1) =>
            match peek_next s1 with
            | Option.none =>
              .error ⟨"expected value after multiline object key", Option.none, Option.none⟩
            | some nl =>
              if depth < nl.depth then
                match run_read on_dup fuel (.value s1 nl.depth) with
                | .error e => .error e
                | .ok (v, s2) =>
                  match dup_step on_dup l depth data k v with
                  | .error e => .error e
                  | .ok data1 => run_read on_dup fuel (.objectLoop s2 depth data1)
              else
                .error ⟨"expected value after multiline object key", Option.none, Option.none⟩
        else .error ⟨"expected object item", some l.lineno, some depth⟩
      else .ok (.obj data, s)

/-- `_Parser.parse`. -/
def parse (on_dup : DuplicateFieldBehaviour) (rawLines : List String) :
    Except NestedtextError Value :=
  let cls := classify_lines rawLines
  match advance_to_next_content_line cls with
  | .error e => .error e
  | .ok (look, rest) =>
    match look with
    | Option.none => .ok .null
    | some l =>
      match run_read on_dup (4 * cls.length + 8) (.value ⟨some l, rest⟩ 0) with
      | .error e => .error e
      | .ok (v, _) => .ok v

/-- `loads(content, on_dup=...)`: parse the lines of an `io.StringIO`. -/
def loads (on_dup : DuplicateFieldBehaviour) (content : String) :
    Except NestedtextError Value :=
  parse on_dup (split_lines content)

/-- Exceptions other than `NestedtextError` that the dump path can raise. -/
inductive PyRaise where
  | NotImplementedError
deriving DecidableEq, Repr

/-- `dumps(obj, *, sort_keys=False, indent=4)`: the body is
`raise NotImplementedError`. -/
def dumps (obj : Value) (sort_keys : Bool) (indent : Nat) : Except PyRaise String :=
  .error .NotImplementedError

/-! ### Helper definitions used to state the claims -/

/-- A stream whose visible lines start with the content lines `ls` and whose
remaining classified lines are `rest`; `p` is the result of advancing past
`rest` (relevant once `ls` is exhausted). -/
def stream_of (ls : List Line) (rest : List RawLine) (p : Option Line × List RawLine) :
    LStream :=
  match ls with
  | [] => ⟨p.1, p.2⟩
  | l :: t => ⟨some l, t.map RawLine.content ++ rest⟩

/-- The loop of `_read_string` stops at this lookahead. -/
def str_stop (depth : Nat) : Option Line → Bool
  | Option.none => true
  | some nl => if nl.kind = LineType.STRING ∧ depth ≤ nl.depth then false else true

/-- The loop of `_read_object_key` stops at this lookahead. -/
def key_stop (depth : Nat) : Option Line → Bool
  | Option.none => true
  | some nl => if nl.kind = LineType.OBJECT_KEY ∧ nl.depth = depth then false else true

/-- The loop of `_read_object` / `_read_list` stops at this lookahead. -/
def obj_stop (depth : Nat) : Option Line → Bool
  | Option.none => true
  | some nl => if nl.depth < depth then true else false

/-- No deeper-indented line follows (for the multiline-key error rule). -/
def no_deeper (depth : Nat) : Option Line → Bool
  | Option.none => true
  | some nl => if nl.depth ≤ depth then true else false

/-- A classified line the stream skips. -/
def raw_ignorable : RawLine → Bool
  | .content l => l.kind.is_ignorable
  | .invalid _ => false

/-- A raw line that classifies as blank or comment. -/
def line_ignorable (l : String) : Bool :=
  match classify_chars l.data with
  | .content k _ _ => k.is_ignorable
  | .invalid _ _ => false

/-- Key of an object-item payload. -/
def pair_key : LineValue → String
  | .pair k _ => k
  | _ => ""

/-- Inline value of an object-item payload (empty string when absent). -/
def pair_val : LineValue → String
  | .pair _ (some v) => v
  | _ => ""

/-- An object-item line at the given depth whose inline value is present and
nonempty (so `_read_object` handles it without recursing). -/
def is_simple_item (depth : Nat) (l : Line) : Bool :=
  (l.kind == LineType.OBJECT_ITEM) && (l.depth == depth) &&
    (match l.value with
     | .pair _ (some v) => !v.data.isEmpty
     | _ => false)

/-- The duplicate-key insertions `_read_object` performs for a run of simple
object items, abstracted from the stream. -/
def fold_insert (on_dup : DuplicateFieldBehaviour) (depth : Nat)
    (data : List (String × Value)) : List Line → Except NestedtextError (List (String × Value))
  | [] => .ok data
  | l :: ls =>
    match dup_step on_dup l depth data (pair_key l.value) (Value.str (pair_val l.value)) with
    | .error e => .error e
    | .ok data1 => fold_insert on_dup depth data1 ls

/-- Insertion under the use-first policy. -/
def ins_first (data : List (String × Value)) (k : String) (v : Value) :
    List (String × Value) :=
  if (data.map Prod.fst).contains k then data else data ++ [(k, v)]

/-- Mapping produced from simple object items under use-first. -/
def build_first (items : List Line) : List (String × Value) :=
  items.foldl (fun data l => ins_first data (pair_key l.value) (Value.str (pair_val l.value))) []

/-- Mapping produced from simple object items under use-last. -/
def build_last (items : List Line) : List (String × Value) :=
  items.foldl (fun data l => dict_set data (pair_key l.value) (Value.str (pair_val l.value))) []

/-- Mapping produced from simple object items with pairwise-distinct keys. -/
def plain_items (items : List Line) : List (String × Value) :=
  items.map (fun l => (pair_key l.value, Value.str (pair_val l.value)))

/-- Lookup in an insertion-ordered mapping. -/
def assoc_lookup (k : String) : List (String × Value) → Option Value
  | [] => Option.none
  | (a, b) :: t => if a = k then some b else assoc_lookup k t

/-- The keys of a run of object items in order of first occurrence, given the
keys already seen. -/
def first_occ_keys (seen : List String) : List Line → List String
  | [] => []
  | l :: ls =>
    if seen.contains (pair_key l.value) then first_occ_keys seen ls
    else pair_key l.value :: first_occ_keys (seen ++ [pair_key l.value]) ls

/-! ### Supporting lemmas -/

theorem advance_content_step (l : Line) (t : List RawLine)
    (h : l.kind.is_ignorable = false) :
    advance_to_next_content_line (.content l :: t) = .ok (some l, t) := by
  simp [advance_to_next_content_line, h]

theorem advance_skip (igs : List RawLine) (t : List RawLine)
    (h : ∀ c ∈ igs, raw_ignorable c = true) :
    advance_to_next_content_line (igs ++ t) = advance_to_next_content_line t := by
  induction igs with
  | nil => rfl
  | cons c cs ih =>
    match c with
    | .content l =>
      have hl : l.kind.is_ignorable = true := h (.content l) (by simp)
      simp [advance_to_next_content_line, hl]
      exact ih (fun x hx => h x (by simp [hx]))
    | .invalid i =>
      have := h (.invalid i) (by simp)
      simp [raw_ignorable] at this

theorem advance_all_ignorable (rls : List RawLine)
    (h : ∀ c ∈ rls, raw_ignorable c = true) :
    advance_to_next_content_line rls = .ok (Option.none, []) := by
  have := advance_skip rls [] h
  simpa [advance_to_next_content_line] using this

theorem stream_next_of (l : Line) (t : List Line) (rest : List RawLine)
    (p : Option Line × List RawLine)
    (ht : ∀ x ∈ t, x.kind.is_ignorable = false)
    (hadv : advance_to_next_content_line rest = .ok p) :
    stream_next (stream_of (l :: t) rest p) = .ok (some l, stream_of t rest p) := by
  match t with
  | [] => simp [stream_next, stream_of, peek_next, hadv]
  | l1 :: t1 =>
    have h1 : l1.kind.is_ignorable = false := ht l1 (by simp)
    simp [stream_next, stream_of, peek_next, advance_content_step l1 _ h1]


theorem read_string_loop_run (depth : Nat) :
    ∀ (frags : List Line) (fuel : Nat) (acc : List String) (rest : List RawLine)
      (p : Option Line × List RawLine),
      (∀ l ∈ frags, l.kind = LineType.STRING ∧ l.depth = depth) →
      advance_to_next_content_line rest = .ok p →
      str_stop depth p.1 = true →
      frags.length < fuel →
      read_string_loop fuel (stream_of frags rest p) depth acc
        = .ok (acc ++ frags.map (fun l => line_str l.value), ⟨p.1, p.2⟩) := by
  intro frags
  induction frags with
  | nil =>
    intro fuel acc rest p _ hadv hstop hfuel
    match fuel, hfuel with
    | f + 1, _ =>
      match hp : p.1 with
      | Option.none => simp [read_string_loop, stream_of, peek_next, hp]
      | some nl =>
        have hnP : ¬(nl.kind = LineType.STRING ∧ depth ≤ nl.depth) := by
          intro hP
          rw [hp] at hstop
          simp [str_stop, hP] at hstop
        simp only [read_string_loop, stream_of, peek_next, hp]
        by_cases hk : nl.kind = LineType.STRING
        · rw [if_pos hk]
          have hd : ¬ depth ≤ nl.depth := fun hd => hnP ⟨hk, hd⟩
          rw [if_neg hd]
          simp [hp]
        · rw [if_neg hk]
          simp [hp]
  | cons l t ih =>
    intro fuel acc rest p hall hadv hstop hfuel
    have hl := hall l (by simp)
    match fuel, hfuel with
    | f + 1, hfuel =>
      have ht : ∀ x ∈ t, x.kind.is_ignorable = false := by
        intro x hx
        rw [(hall x (by simp [hx])).1]
        rfl
      have hnext := stream_next_of l t rest p ht hadv
      have hpeek : peek_next (stream_of (l :: t) rest p) = some l := by
        simp [stream_of, peek_next]
      simp only [read_string_loop, hpeek, hnext, hl.1, hl.2, le_refl, if_true, ne_eq,
        not_true_eq_false, if_false, ite_true, ite_false]
      rw [ih f (acc ++ [line_str l.value]) rest p (fun x hx => hall x (by simp [hx])) hadv hstop
        (by simpa using Nat.lt_of_succ_lt_succ hfuel)]
      simp


theorem read_string_loop_err (depth : Nat) :
    ∀ (pre : List Line) (fuel : Nat) (acc : List String) (bad : Line)
      (restB : List RawLine) (pB : Option Line × List RawLine),
      (∀ l ∈ pre, l.kind = LineType.STRING ∧ l.depth = depth) →
      bad.kind = LineType.STRING →
      depth ≤ bad.depth →
      bad.depth ≠ depth →
      advance_to_next_content_line restB = .ok pB →
      pre.length < fuel →
      read_string_loop fuel (stream_of (pre ++ [bad]) restB pB) depth acc
        = .error (indentation_error bad depth) := by
  intro pre
  induction pre with
  | nil =>
    intro fuel acc bad restB pB _ hk hle hne hadv hfuel
    match fuel, hfuel with
    | f + 1, _ =>
      have hnext := stream_next_of bad [] restB pB (by simp) hadv
      have hpeek : peek_next (stream_of ([] ++ [bad]) restB pB) = some bad := by
        simp [stream_of, peek_next]
      simp only [List.nil_append] at hpeek hnext ⊢
      simp only [read_string_loop, hpeek, hnext, hk, hle, if_true, ite_true]
      simp [hne]
  | cons l t ih =>
    intro fuel acc bad restB pB hall hk hle hne hadv hfuel
    have hl := hall l (by simp)
    match fuel, hfuel with
    | f + 1, hfuel =>
      have ht : ∀ x ∈ t ++ [bad], x.kind.is_ignorable = false := by
        intro x hx
        rcases List.mem_append.1 hx with hx | hx
        · rw [(hall x (by simp [hx])).1]; rfl
        · rw [List.mem_singleton.1 hx, hk]; rfl
      have hnext := stream_next_of l (t ++ [bad]) restB pB ht hadv
      have hpeek : peek_next (stream_of (l :: (t ++ [bad])) restB pB) = some l := by
        simp [stream_of, peek_next]
      simp only [List.cons_append]
      simp only [read_string_loop, hpeek, hnext, hl.1, hl.2, le_refl, if_true, ne_eq,
        not_true_eq_false, if_false, ite_true, ite_false]
      exact ih f (acc ++ [line_str l.value]) bad restB pB
        (fun x hx => hall x (by simp [hx])) hk hle hne hadv
        (by simpa using Nat.lt_of_succ_lt_succ hfuel)

theorem read_string_run (depth : Nat) (frags0 : List Line) (lastl : Line) (fuel : Nat)
    (rest : List RawLine) (p : Option Line × List RawLine)
    (hall : ∀ l ∈ frags0 ++ [lastl], l.kind = LineType.STRING ∧ l.depth = depth)
    (hadv : advance_to_next_content_line rest = .ok p)
    (hstop : str_stop depth p.1 = true)
    (hfuel : frags0.length + 1 < fuel) :
    read_string fuel (stream_of (frags0 ++ [lastl]) rest p) depth
      = .ok (.str (joinAll (frags0.map (fun l => line_str l.value)
          ++ [ofChars (rstripBy isCRLF (line_str lastl.value).data)])), ⟨p.1, p.2⟩) := by
  have hrun := read_string_loop_run depth (frags0 ++ [lastl]) fuel [] rest p hall hadv hstop
    (by simpa using hfuel)
  rw [read_string, hrun]
  simp only [List.nil_append, List.map_append, List.map_cons, List.map_nil]
  rw [finalize_fragments]
  simp [List.getLast?_concat, List.dropLast_concat]


theorem read_object_key_loop_run (depth : Nat) :
    ∀ (frags : List Line) (fuel : Nat) (acc : List String) (rest : List RawLine)
      (p : Option Line × List RawLine),
      (∀ l ∈ frags, l.kind = LineType.OBJECT_KEY ∧ l.depth = depth) →
      advance_to_next_content_line rest = .ok p →
      key_stop depth p.1 = true →
      frags.length < fuel →
      read_object_key_loop fuel (stream_of frags rest p) depth acc
        = .ok (acc ++ frags.map (fun l => line_str l.value), ⟨p.1, p.2⟩) := by
  intro frags
  induction frags with
  | nil =>
    intro fuel acc rest p _ hadv hstop hfuel
    match fuel, hfuel with
    | f + 1, _ =>
      match hp : p.1 with
      | Option.none => simp [read_object_key_loop, stream_of, peek_next, hp]
      | some nl =>
        have hnP : ¬(nl.kind = LineType.OBJECT_KEY ∧ nl.depth = depth) := by
          intro hP
          rw [hp] at hstop
          simp [key_stop, hP] at hstop
        simp only [read_object_key_loop, stream_of, peek_next, hp]
        by_cases hk : nl.kind = LineType.OBJECT_KEY
        · rw [if_pos hk]
          have hd : ¬ nl.depth = depth := fun hd => hnP ⟨hk, hd⟩
          rw [if_neg hd]
          simp [hp]
        · rw [if_neg hk]
          simp [hp]
  | cons l t ih =>
    intro fuel acc rest p hall hadv hstop hfuel
    have hl := hall l (by simp)
    match fuel, hfuel with
    | f + 1, hfuel =>
      have ht : ∀ x ∈ t, x.kind.is_ignorable = false := by
        intro x hx
        rw [(hall x (by simp [hx])).1]
        rfl
      have hnext := stream_next_of l t rest p ht hadv
      have hpeek : peek_next (stream_of (l :: t) rest p) = some l := by
        simp [stream_of, peek_next]
      simp only [read_object_key_loop, hpeek, hnext, hl.1, hl.2, if_true, ite_true]
      rw [ih f (acc ++ [line_str l.value]) rest p (fun x hx => hall x (by simp [hx])) hadv hstop
        (by simpa using Nat.lt_of_succ_lt_succ hfuel)]
      simp

theorem read_object_key_run (depth : Nat) (frags0 : List Line) (lastl : Line) (fuel : Nat)
    (rest : List RawLine) (p : Option Line × List RawLine)
    (hall : ∀ l ∈ frags0 ++ [lastl], l.kind = LineType.OBJECT_KEY ∧ l.depth = depth)
    (hadv : advance_to_next_content_line rest = .ok p)
    (hstop : key_stop depth p.1 = true)
    (hfuel : frags0.length + 1 < fuel) :
    read_object_key fuel (stream_of (frags0 ++ [lastl]) rest p) depth
      = .ok (joinAll (frags0.map (fun l => line_str l.value)
          ++ [ofChars (rstripBy isCRLF (line_str lastl.value).data)]), ⟨p.1, p.2⟩) := by
  have hrun := read_object_key_loop_run depth (frags0 ++ [lastl]) fuel [] rest p hall hadv hstop
    (by simpa using hfuel)
  rw [read_object_key, hrun]
  simp only [List.nil_append, List.map_append, List.map_cons, List.map_nil]
  rw [finalize_fragments]
  simp [List.getLast?_concat, List.dropLast_concat]


theorem obj_stop_lt (depth : Nat) (nl : Line) (hstop : obj_stop depth (some nl) = true) :
    nl.depth < depth := by
  by_cases h : nl.depth < depth
  · exact h
  · simp [obj_stop, h] at hstop

theorem object_loop_run (on_dup : DuplicateFieldBehaviour) (depth : Nat) :
    ∀ (items : List Line) (fuel : Nat) (data : List (String × Value))
      (rest : List RawLine) (p : Option Line × List RawLine),
      (∀ l ∈ items, is_simple_item depth l = true) →
      advance_to_next_content_line rest = .ok p →
      obj_stop depth p.1 = true →
      items.length < fuel →
      run_read on_dup fuel (.objectLoop (stream_of items rest p) depth data)
        = match fold_insert on_dup depth data items with
          | .error e => .error e
          | .ok d2 => .ok (.obj d2, ⟨p.1, p.2⟩) := by
  intro items
  induction items with
  | nil =>
    intro fuel data rest p _ hadv hstop hfuel
    match fuel, hfuel with
    | f + 1, _ =>
      match hp : p.1 with
      | Option.none => simp [run_read, stream_of, peek_next, hp, fold_insert]
      | some nl =>
        have hlt : nl.depth < depth := obj_stop_lt depth nl (hp ▸ hstop)
        have hnle : ¬ depth ≤ nl.depth := Nat.not_le.2 hlt
        simp only [run_read, stream_of, peek_next, hp, fold_insert]
        rw [if_neg hnle]
  | cons l t ih =>
    intro fuel data rest p hall hadv hstop hfuel
    have hsimp := hall l (by simp)
    simp only [is_simple_item, Bool.and_eq_true, beq_iff_eq] at hsimp
    obtain ⟨⟨hk, hd⟩, hval⟩ := hsimp
    match fuel, hfuel with
    | f + 1, hfuel =>
      have ht : ∀ x ∈ t, x.kind.is_ignorable = false := by
        intro x hx
        have hx2 := hall x (by simp [hx])
        simp only [is_simple_item, Bool.and_eq_true, beq_iff_eq] at hx2
        rw [hx2.1.1]
        rfl
      have hnext := stream_next_of l t rest p ht hadv
      have hpeek : peek_next (stream_of (l :: t) rest p) = some l := by
        simp [stream_of, peek_next]
      match hlv : l.value with
      | .pair k (some v) =>
        rw [hlv] at hval
        simp only [] at hval
        simp only [run_read, hpeek, hnext, hk, hd, le_refl, if_true, ne_eq,
          not_true_eq_false, if_false, ite_true, ite_false, hlv, hval, fold_insert,
          pair_key, pair_val]
        match hds : dup_step on_dup l depth data k (Value.str v) with
        | .error e => rfl
        | .ok data1 =>
          simp only []
          exact ih f data1 rest p (fun x hx => hall x (by simp [hx])) hadv hstop
            (by simpa using Nat.lt_of_succ_lt_succ hfuel)
      | .absent => rw [hlv] at hval; simp at hval
      | .str s => rw [hlv] at hval; simp at hval
      | .pair k Option.none => rw [hlv] at hval; simp at hval


theorem lookup_none_of_not_contains (k : String) :
    ∀ (d : List (String × Value)), (d.map Prod.fst).contains k = false →
      assoc_lookup k d = Option.none := by
  intro d
  induction d with
  | nil => intro _; rfl
  | cons h t ih =>
    intro hc
    simp only [List.map_cons, List.contains_cons, Bool.or_eq_false_iff, beq_eq_false_iff_ne,
      ne_eq] at hc
    simp only [assoc_lookup]
    rw [if_neg, ih]
    · simpa using hc.2
    · exact fun he => hc.1 he.symm

theorem lookup_some_of_contains (k : String) :
    ∀ (d : List (String × Value)), (d.map Prod.fst).contains k = true →
      ∃ x, assoc_lookup k d = some x := by
  intro d
  induction d with
  | nil => intro hc; simp at hc
  | cons h t ih =>
    intro hc
    simp only [List.map_cons, List.contains_cons, Bool.or_eq_true, beq_iff_eq] at hc
    by_cases he : h.1 = k
    · exact ⟨h.2, by simp [assoc_lookup, he]⟩
    · rcases hc with hc | hc
      · exact absurd hc.symm he
      · rcases ih hc with ⟨x, hx⟩
        exact ⟨x, by simp [assoc_lookup, he, hx]⟩

theorem lookup_append_single (k a : String) (b : Value) :
    ∀ (d : List (String × Value)),
      assoc_lookup k (d ++ [(a, b)])
        = match assoc_lookup k d with
          | some x => some x
          | Option.none => if a = k then some b else Option.none := by
  intro d
  induction d with
  | nil => simp [assoc_lookup]
  | cons h t ih =>
    by_cases he : h.1 = k
    · simp [assoc_lookup, he]
    · simp only [List.cons_append, assoc_lookup, if_neg he, List.append_eq, ih]

theorem find?_concat {α : Type} (p : α → Bool) (a : α) :
    ∀ (xs : List α),
      (xs ++ [a]).find? p
        = match xs.find? p with
          | some x => some x
          | Option.none => if p a then some a else Option.none := by
  intro xs
  induction xs with
  | nil =>
    simp only [List.nil_append]
    by_cases hp : p a
    · simp [List.find?, hp]
    · simp only [List.find?]
      rw [if_neg hp]
      simp [List.find?_nil, hp]
  | cons h t ih =>
    by_cases hp : p h
    · simp [List.find?_cons_of_pos _ hp]
    · simp only [List.cons_append, List.find?_cons_of_neg _ hp, ih]

theorem lookup_set_in_place (k a : String) (v : Value) :
    ∀ (d : List (String × Value)),
      assoc_lookup k (set_in_place a v d)
        = if a = k then
            (if (d.map Prod.fst).contains a then some v else assoc_lookup k d)
          else assoc_lookup k d := by
  intro d
  induction d with
  | nil => simp [set_in_place, assoc_lookup]
  | cons hd t ih =>
    obtain ⟨x, y⟩ := hd
    by_cases hxa : x = a
    · subst hxa
      by_cases hxk : x = k
      · subst hxk
        simp [set_in_place, assoc_lookup]
      · simp [set_in_place, assoc_lookup, hxk, ih]
    · by_cases hxk : x = k
      · subst hxk
        have hak : ¬ a = x := fun he => hxa he.symm
        simp [set_in_place, assoc_lookup, hxa, hak]
      · have hax2 : (a == x) = false := by
          simpa using fun h : a = x => hxa h.symm
        have hcc : ((x :: List.map Prod.fst t).contains a) = ((List.map Prod.fst t).contains a) := by
          simp [List.contains_cons, hax2]
        simp only [set_in_place, if_neg hxa, assoc_lookup, if_neg hxk, ih, List.map_cons]
        rw [hcc]

theorem lookup_dict_set (k a : String) (v : Value) (d : List (String × Value)) :
    assoc_lookup k (dict_set d a v) = if a = k then some v else assoc_lookup k d := by
  unfold dict_set
  by_cases hc : (d.map Prod.fst).contains a
  · rw [if_pos hc, lookup_set_in_place]
    by_cases hak : a = k
    · rw [if_pos hak, if_pos hc, if_pos hak]
    · rw [if_neg hak, if_neg hak]
  · rw [if_neg hc, lookup_append_single]
    by_cases hak : a = k
    · subst hak
      have hnone := lookup_none_of_not_contains a d (by simpa using hc)
      simp [hnone]
    · match h : assoc_lookup k d with
      | some x => simp [h, hak]
      | Option.none => simp [h, hak]

theorem mapfst_set_in_place (a : String) (v : Value) :
    ∀ (d : List (String × Value)),
      (set_in_place a v d).map Prod.fst = d.map Prod.fst := by
  intro d
  induction d with
  | nil => rfl
  | cons hd t ih =>
    obtain ⟨x, y⟩ := hd
    by_cases hxa : x = a <;> simp [set_in_place, hxa, ih]

theorem mapfst_dict_set_mem (a : String) (v : Value) (d : List (String × Value))
    (hc : (d.map Prod.fst).contains a = true) :
    (dict_set d a v).map Prod.fst = d.map Prod.fst := by
  unfold dict_set
  rw [if_pos hc, mapfst_set_in_place]

theorem mapfst_dict_set_not_mem (a : String) (v : Value) (d : List (String × Value))
    (hc : (d.map Prod.fst).contains a = false) :
    (dict_set d a v).map Prod.fst = d.map Prod.fst ++ [a] := by
  have hcn : ¬ ((d.map Prod.fst).contains a = true) := by
    simp only [hc]
    exact fun h => nomatch h
  unfold dict_set
  rw [if_neg hcn]
  simp

theorem dup_step_use_first (l : Line) (depth : Nat) (data : List (String × Value))
    (k : String) (v : Value) :
    dup_step .USE_FIRST l depth data k v = .ok (ins_first data k v) := by
  unfold dup_step
  by_cases hc : (data.map Prod.fst).contains k = true
  · rw [if_pos hc]
    unfold ins_first
    rw [if_pos hc]
  · rw [if_neg hc]
    unfold ins_first dict_set
    rw [if_neg hc, if_neg hc]

theorem dup_step_use_last (l : Line) (depth : Nat) (data : List (String × Value))
    (k : String) (v : Value) :
    dup_step .USE_LAST l depth data k v = .ok (dict_set data k v) := by
  unfold dup_step
  by_cases hc : (data.map Prod.fst).contains k = true
  · rw [if_pos hc]
  · rw [if_neg hc]

theorem fold_insert_use_first (depth : Nat) :
    ∀ (items : List Line) (data : List (String × Value)),
      fold_insert .USE_FIRST depth data items
        = .ok (items.foldl
            (fun d l => ins_first d (pair_key l.value) (Value.str (pair_val l.value))) data) := by
  intro items
  induction items with
  | nil => intro data; rfl
  | cons l t ih =>
    intro data
    simp only [fold_insert, dup_step_use_first, List.foldl_cons]
    exact ih _

theorem fold_insert_use_last (depth : Nat) :
    ∀ (items : List Line) (data : List (String × Value)),
      fold_insert .USE_LAST depth data items
        = .ok (items.foldl
            (fun d l => dict_set d (pair_key l.value) (Value.str (pair_val l.value))) data) := by
  intro items
  induction items with
  | nil => intro data; rfl
  | cons l t ih =>
    intro data
    simp only [fold_insert, dup_step_use_last, List.foldl_cons]
    exact ih _

theorem build_first_lookup (k : String) :
    ∀ (items : List Line) (data : List (String × Value)),
      assoc_lookup k (items.foldl
          (fun d l => ins_first d (pair_key l.value) (Value.str (pair_val l.value))) data)
        = match assoc_lookup k data with
          | some x => some x
          | Option.none =>
            (items.find? (fun l => pair_key l.value == k)).map
              (fun l => Value.str (pair_val l.value)) := by
  intro items
  induction items with
  | nil =>
    intro data
    match h : assoc_lookup k data with
    | some x => simp [h]
    | Option.none => simp [h]
  | cons l t ih =>
    intro data
    simp only [List.foldl_cons]
    rw [ih]
    by_cases hc : (data.map Prod.fst).contains (pair_key l.value) = true
    · have hins : ins_first data (pair_key l.value) (Value.str (pair_val l.value)) = data := by
        unfold ins_first
        rw [if_pos hc]
      rw [hins]
      by_cases hak : pair_key l.value = k
      · rcases lookup_some_of_contains k data (hak ▸ hc) with ⟨x, hx⟩
        rw [hx, List.find?_cons_of_pos _ (by simpa using hak)]
      · rw [List.find?_cons_of_neg _ (by simpa using hak)]
    · have hins : ins_first data (pair_key l.value) (Value.str (pair_val l.value))
          = data ++ [(pair_key l.value, Value.str (pair_val l.value))] := by
        unfold ins_first
        rw [if_neg hc]
      rw [hins, lookup_append_single]
      by_cases hak : pair_key l.value = k
      · have hnone : assoc_lookup k data = Option.none := by
          apply lookup_none_of_not_contains
          rw [← hak]
          simpa using hc
        rw [hnone, List.find?_cons_of_pos _ (by simpa using hak)]
        simp [hak]
      · rw [List.find?_cons_of_neg _ (by simpa using hak)]
        match h : assoc_lookup k data with
        | some x => simp
        | Option.none => simp [hak]

theorem build_last_lookup (k : String) :
    ∀ (items : List Line) (data : List (String × Value)),
      assoc_lookup k (items.foldl
          (fun d l => dict_set d (pair_key l.value) (Value.str (pair_val l.value))) data)
        = match items.reverse.find? (fun l => pair_key l.value == k) with
          | some m => some (Value.str (pair_val m.value))
          | Option.none => assoc_lookup k data := by
  intro items
  induction items with
  | nil => intro data; rfl
  | cons l t ih =>
    intro data
    simp only [List.foldl_cons]
    rw [ih]
    simp only [List.reverse_cons]
    rw [find?_concat]
    match hf : t.reverse.find? (fun l => pair_key l.value == k) with
    | some m => rw [hf]
    | Option.none =>
      rw [hf, lookup_dict_set]
      by_cases hak : pair_key l.value = k
      · rw [if_pos hak, if_pos (by simpa using hak : (pair_key l.value == k) = true)]
      · rw [if_neg hak, if_neg (by simpa using hak : ¬ (pair_key l.value == k) = true)]
theorem build_last_keys :
    ∀ (items : List Line) (data : List (String × Value)),
      (items.foldl
          (fun d l => dict_set d (pair_key l.value) (Value.str (pair_val l.value))) data).map
            Prod.fst
        = data.map Prod.fst ++ first_occ_keys (data.map Prod.fst) items := by
  intro items
  induction items with
  | nil => intro data; simp [first_occ_keys]
  | cons l t ih =>
    intro data
    simp only [List.foldl_cons]
    rw [ih]
    by_cases hc : (data.map Prod.fst).contains (pair_key l.value) = true
    · rw [mapfst_dict_set_mem _ _ _ hc]
      simp only [first_occ_keys]
      rw [if_pos hc]
    · rw [mapfst_dict_set_not_mem _ _ _ (by simpa using hc)]
      simp only [first_occ_keys]
      rw [if_neg hc]
      simp

theorem bool_ne_true {b : Bool} (h : b = false) : ¬ (b = true) := by
  rw [h]
  exact fun h2 => nomatch h2

theorem contains_append_single (xs : List String) (a k : String) :
    ((xs ++ [a]).contains k) = (xs.contains k || (k == a)) := by
  by_cases h : k = a <;> simp [h]

theorem fold_insert_error_nodup (depth : Nat) :
    ∀ (items : List Line) (data : List (String × Value)),
      (∀ l ∈ items, (data.map Prod.fst).contains (pair_key l.value) = false) →
      (items.map (fun l => pair_key l.value)).Nodup →
      fold_insert .ERROR depth data items = .ok (data ++ plain_items items) := by
  intro items
  induction items with
  | nil => intro data _ _; simp [fold_insert, plain_items]
  | cons l t ih =>
    intro data hout hnd
    have hc : (data.map Prod.fst).contains (pair_key l.value) = false := hout l (by simp)
    simp only [fold_insert, dup_step]
    rw [if_neg (bool_ne_true hc)]
    have hset : dict_set data (pair_key l.value) (Value.str (pair_val l.value))
        = data ++ [(pair_key l.value, Value.str (pair_val l.value))] := by
      unfold dict_set
      rw [if_neg (bool_ne_true hc)]
    rw [hset]
    simp only [List.map_cons, List.nodup_cons] at hnd
    have hx : ∀ m ∈ t,
        (((data ++ [(pair_key l.value, Value.str (pair_val l.value))]).map Prod.fst).contains
          (pair_key m.value)) = false := by
      intro m hm
      have h1 : (data.map Prod.fst).contains (pair_key m.value) = false := hout m (by simp [hm])
      have h2 : ¬ pair_key l.value = pair_key m.value := by
        intro he
        exact hnd.1 (he ▸ List.mem_map_of_mem (fun l => pair_key l.value) hm)
      have h2b : (pair_key m.value == pair_key l.value) = false := by
        simpa using fun he => h2 he.symm
      rw [List.map_append, List.map_cons, List.map_nil, contains_append_single, h1, h2b]
      rfl
    exact (ih (data ++ [(pair_key l.value, Value.str (pair_val l.value))]) hx hnd.2).trans
      (by simp [plain_items])

theorem fold_insert_error_dup (depth : Nat) :
    ∀ (pre : List Line) (bad : Line) (post : List Line) (data : List (String × Value)),
      (∀ l ∈ pre, (data.map Prod.fst).contains (pair_key l.value) = false) →
      ((pre.map (fun l => pair_key l.value)).Nodup) →
      ((data.map Prod.fst ++ pre.map (fun l => pair_key l.value)).contains
        (pair_key bad.value) = true) →
      fold_insert .ERROR depth data (pre ++ bad :: post)
        = .error ⟨"duplicate key", some bad.lineno, some depth⟩ := by
  intro pre
  induction pre with
  | nil =>
    intro bad post data _ _ hdup
    simp only [List.map_nil, List.append_nil] at hdup
    simp only [List.nil_append, fold_insert, dup_step]
    rw [if_pos hdup]
  | cons l t ih =>
    intro bad post data hout hnd hdup
    have hc : (data.map Prod.fst).contains (pair_key l.value) = false := hout l (by simp)
    simp only [List.cons_append, fold_insert, dup_step]
    rw [if_neg (bool_ne_true hc)]
    have hset : dict_set data (pair_key l.value) (Value.str (pair_val l.value))
        = data ++ [(pair_key l.value, Value.str (pair_val l.value))] := by
      unfold dict_set
      rw [if_neg (bool_ne_true hc)]
    rw [hset]
    simp only [List.map_cons, List.nodup_cons] at hnd
    have hx : ∀ m ∈ t,
        (((data ++ [(pair_key l.value, Value.str (pair_val l.value))]).map Prod.fst).contains
          (pair_key m.value)) = false := by
      intro m hm
      have h1 : (data.map Prod.fst).contains (pair_key m.value) = false := hout m (by simp [hm])
      have h2 : ¬ pair_key l.value = pair_key m.value := by
        intro he
        exact hnd.1 (he ▸ List.mem_map_of_mem (fun l => pair_key l.value) hm)
      have h2b : (pair_key m.value == pair_key l.value) = false := by
        simpa using fun he => h2 he.symm
      rw [List.map_append, List.map_cons, List.map_nil, contains_append_single, h1, h2b]
      rfl
    have hdup2 : (((data ++ [(pair_key l.value, Value.str (pair_val l.value))]).map Prod.fst
        ++ t.map (fun l => pair_key l.value)).contains (pair_key bad.value)) = true := by
      rw [List.map_append, List.map_cons, List.map_nil, List.append_assoc,
        List.singleton_append]
      simpa using hdup
    exact ih bad post (data ++ [(pair_key l.value, Value.str (pair_val l.value))]) hx hnd.2 hdup2

/-! ### Claim theorems and witnesses -/

/-- C1: `dumps` raises `NotImplementedError` for every input, so the
serializer emits no text at all and `parse(emit(v)) == v` cannot hold for any
value tree; in particular it fails for `{"a": "1"}`. -/
theorem C1_dumps_never_emits :
    (∀ (v : Value) (sk : Bool) (ind : Nat),
      dumps v sk ind = .error PyRaise.NotImplementedError) ∧
    dumps (Value.obj [("a", Value.str "1")]) false 4 = .error PyRaise.NotImplementedError :=
  ⟨fun _ _ _ => rfl, rfl⟩

/-- C4 (failing input): inline-container lines are not rejected with
`unrecognized line`; `_parse_inline_list` / `_parse_inline_object` are
unimplemented (`pass`), so `loads` returns Python `None` with no error. -/
theorem C4_inline_container_not_rejected :
    loads .ERROR "[a]\n" = .ok Value.null ∧
    loads .ERROR "\x7ba: b\x7d\n" = .ok Value.null ∧
    (∀ e : NestedtextError,
      (Except.ok Value.null : Except NestedtextError Value) ≠ Except.error e) :=
  ⟨rfl, rfl, fun _ h => nomatch h⟩

/-- C8: the empty document parses to the absent value, `"> \n"` parses to the
empty string, and the two results differ. -/
theorem C8_empty_distinction :
    loads .ERROR "" = .ok Value.null ∧
    loads .ERROR "> \n" = .ok (Value.str "") ∧
    Value.null ≠ Value.str "" :=
  ⟨rfl, rfl, fun h => nomatch h⟩

/-- C9 (failing input): rewriting the line terminators of `"> a\n> b\n"`
uniformly to CR or to CRLF changes the result of `loads`: `io.StringIO`
(default `newline='\n'`) does not treat a lone CR as a terminator, and the
retained internal terminator of a multiline string keeps its CRLF form. -/
theorem C9_line_ending_dependence :
    loads .ERROR "> a\n> b\n" = .ok (Value.str "a\nb") ∧
    loads .ERROR "> a\r> b\r" = .ok (Value.str "a\r> b") ∧
    loads .ERROR "> a\r\n> b\r\n" = .ok (Value.str "a\r\nb") ∧
    Value.str "a\nb" ≠ Value.str "a\r> b" ∧
    Value.str "a\nb" ≠ Value.str "a\r\nb" :=
  ⟨rfl, rfl, rfl,
   fun h => absurd (Value.str.inj h) (by decide),
   fun h => absurd (Value.str.inj h) (by decide)⟩

/-- C3 (counterexample): a tab in the indentation is reported with message
`invalid line`, not `invalid indentation` as the claim states (and an
unclassifiable line is also reported as `invalid line`, not
`unrecognized line`). -/
theorem C3_counterexample :
    loads .ERROR "\tkey: value\n" = .error ⟨"invalid line", some 1, some 0⟩ ∧
    loads .ERROR "no colon here\n" = .error ⟨"invalid line", some 1, some 0⟩ ∧
    ("invalid line" : String) ≠ "invalid indentation" ∧
    ("invalid line" : String) ≠ "unrecognized line" :=
  ⟨rfl, rfl, by decide, by decide⟩

/-- C7 (counterexample): the line `"key: \n"` classifies with a present
(empty) inline value, yet the parser applies the next-line rule to it: with a
deeper-indented list following, `loads` yields `{"key": ["x"]}` rather than
using the empty inline value as the key's String value. -/
theorem C7_counterexample :
    classify_chars "key: \n".data
      = .content .OBJECT_ITEM 0 (.pair "key" (some "")) ∧
    loads .ERROR "key: \n  - x\n" = .ok (.obj [("key", .list [.str "x"])]) ∧
    Value.list [Value.str "x"] ≠ Value.str "" :=
  ⟨rfl, rfl, fun h => nomatch h⟩
/-- C5: a run of `> ` fragments read at the run's own depth concatenates the
payloads, keeping internal terminators and stripping only the final
fragment's; a consumed fragment at any other depth (≥ the reader's depth)
raises `invalid indentation`; the literal example from the spec. -/
theorem C5_multiline_string :
    (∀ (depth fuel : Nat) (frags0 : List Line) (lastl : Line) (rest : List RawLine)
      (p : Option Line × List RawLine),
      (∀ l ∈ frags0 ++ [lastl], l.kind = LineType.STRING ∧ l.depth = depth) →
      advance_to_next_content_line rest = .ok p →
      str_stop depth p.1 = true →
      frags0.length + 1 < fuel →
      read_string fuel (stream_of (frags0 ++ [lastl]) rest p) depth
        = .ok (.str (joinAll (frags0.map (fun l => line_str l.value)
            ++ [ofChars (rstripBy isCRLF (line_str lastl.value).data)])), ⟨p.1, p.2⟩)) ∧
    (∀ (depth fuel : Nat) (pre : List Line) (bad : Line) (restB : List RawLine)
      (pB : Option Line × List RawLine),
      (∀ l ∈ pre, l.kind = LineType.STRING ∧ l.depth = depth) →
      bad.kind = LineType.STRING →
      depth ≤ bad.depth →
      bad.depth ≠ depth →
      advance_to_next_content_line restB = .ok pB →
      pre.length < fuel →
      read_string fuel (stream_of (pre ++ [bad]) restB pB) depth
        = .error ⟨"invalid indentation", some bad.lineno, some depth⟩) ∧
    loads .ERROR "> hello\n> world\n" = .ok (.str "hello\nworld") := by
  refine ⟨?_, ?_, rfl⟩
  · intro depth fuel frags0 lastl rest p hall hadv hstop hfuel
    exact read_string_run depth frags0 lastl fuel rest p hall hadv hstop hfuel
  · intro depth fuel pre bad restB pB hall hk hle hne hadv hfuel
    rw [read_string, read_string_loop_err depth pre fuel [] bad restB pB hall hk hle hne hadv hfuel]
    rfl

/-- C6: a run of `: ` continuation lines at the mapping's depth concatenates
into a multiline key (final trailing terminator stripped); when no
deeper-indented line follows the key, `_read_object` raises
`expected value after multiline object key`; the literal example. -/
theorem C6_multiline_key :
    (∀ (depth fuel : Nat) (frags0 : List Line) (lastl : Line) (rest : List RawLine)
      (p : Option Line × List RawLine),
      (∀ l ∈ frags0 ++ [lastl], l.kind = LineType.OBJECT_KEY ∧ l.depth = depth) →
      advance_to_next_content_line rest = .ok p →
      key_stop depth p.1 = true →
      frags0.length + 1 < fuel →
      read_object_key fuel (stream_of (frags0 ++ [lastl]) rest p) depth
        = .ok (joinAll (frags0.map (fun l => line_str l.value)
            ++ [ofChars (rstripBy isCRLF (line_str lastl.value).data)]), ⟨p.1, p.2⟩)) ∧
    (∀ (on_dup : DuplicateFieldBehaviour) (depth fuel : Nat) (frags0 : List Line)
      (lastl : Line) (rest : List RawLine) (p : Option Line × List RawLine)
      (data : List (String × Value)),
      (∀ l ∈ frags0 ++ [lastl], l.kind = LineType.OBJECT_KEY ∧ l.depth = depth) →
      advance_to_next_content_line rest = .ok p →
      key_stop depth p.1 = true →
      no_deeper depth p.1 = true →
      frags0.length + 3 < fuel →
      run_read on_dup fuel (.objectLoop (stream_of (frags0 ++ [lastl]) rest p) depth data)
        = .error ⟨"expected value after multiline object key", Option.none, Option.none⟩) ∧
    loads .ERROR ": line1\n: line2\n  > value\n"
      = .ok (.obj [("line1\nline2", .str "value")]) := by
  refine ⟨?_, ?_, rfl⟩
  · intro depth fuel frags0 lastl rest p hall hadv hstop hfuel
    exact read_object_key_run depth frags0 lastl fuel rest p hall hadv hstop hfuel
  · intro on_dup depth fuel frags0 lastl rest p data hall hadv hstop hnd hfuel
    match fuel, hfuel with
    | f + 1, hfuel =>
      match hfr : frags0 ++ [lastl] with
      | [] => exact absurd hfr (by simp)
      | h0 :: t0 =>
        have hh0 : h0.kind = LineType.OBJECT_KEY ∧ h0.depth = depth := by
          apply hall
          rw [hfr]
          simp
        have hpeek : peek_next (stream_of (h0 :: t0) rest p) = some h0 := by
          simp [stream_of, peek_next]
        have hkey := read_object_key_run depth frags0 lastl f rest p hall hadv hstop
          (by omega)
        rw [hfr] at hkey
        simp only [run_read, hpeek, hh0.1, hh0.2, le_refl, if_true, ne_eq,
          not_true_eq_false, if_false, ite_true, ite_false]
        rw [if_neg (show ¬ (LineType.OBJECT_KEY = LineType.OBJECT_ITEM) from
              fun hcon => nomatch hcon), hkey]
        match hp : p.1 with
        | Option.none => rfl
        | some nl =>
          have hle : nl.depth ≤ depth := by
            by_cases h : nl.depth ≤ depth
            · exact h
            · rw [hp] at hnd
              simp [no_deeper, h] at hnd
          have hnlt : ¬ depth < nl.depth := by omega
          simp only [peek_next]
          rw [if_neg hnlt]

/-- C10: a document whose every line is blank or a comment parses to the
absent value `None`, exactly like the empty document; no error is raised. -/
theorem C10_ignorable_only (pol : DuplicateFieldBehaviour) (d : String)
    (h : ∀ l ∈ split_lines d, line_ignorable l = true) :
    loads pol d = .ok Value.null ∧ loads pol "" = .ok Value.null := by
  constructor
  · have hall : ∀ c ∈ classify_lines (split_lines d), raw_ignorable c = true := by
      intro c hc
      rw [classify_lines] at hc
      rcases List.mem_map.1 hc with ⟨q, hq, rfl⟩
      have hq2 : q.2 ∈ split_lines d := by
        have h3 := List.mem_enum_iff_getElem?.1 hq
        exact List.getElem?_mem h3
      have hlig := h q.2 hq2
      unfold line_ignorable at hlig
      unfold read_line raw_ignorable
      match hcl : classify_chars q.2.data with
      | .content k dep v =>
        rw [hcl] at hlig
        exact hlig
      | .invalid k c2 =>
        rw [hcl] at hlig
        exact absurd hlig (by simp)
    rw [loads, parse]
    simp only [advance_all_ignorable _ hall]
  · rfl
theorem dropWhile_head_false {α : Type} (p : α → Bool) :
    ∀ (l : List α) (ch : α) (t : List α), l.dropWhile p = ch :: t → p ch = false := by
  intro l
  induction l with
  | nil => intro ch t h; exact absurd h (by simp)
  | cons x xs ih =>
    intro ch t h
    by_cases hp : p x = true
    · rw [List.dropWhile_cons_of_pos hp] at h
      exact ih ch t h
    · rw [List.dropWhile_cons_of_neg hp] at h
      cases h
      simpa using hp

theorem non_space_indent_col (cs : List Char) (c : Nat)
    (h : classify_chars cs = .invalid .NON_SPACE_INDENT c) :
    ∃ ch, (rstripBy isCRLF cs).get? c = some ch ∧ pyIsSpace ch = true ∧ ch ≠ ' ' := by
  unfold classify_chars at h
  by_cases hblank : cs.all pyIsSpace = true
  · rw [if_pos hblank] at h
    exact absurd h (by simp)
  · rw [if_neg hblank] at h
    simp only [] at h
    by_cases hcomm : ((rstripBy isCRLF cs).dropWhile pyIsSpace).head? = some '#'
    · rw [if_pos hcomm] at h
      exact absurd h (by simp)
    · rw [if_neg hcomm] at h
      by_cases hguard :
          (((rstripBy isCRLF cs).dropWhile (fun c => c = ' ')).dropWhile pyIsSpace).length
            < ((rstripBy isCRLF cs).dropWhile (fun c => c = ' ')).length
      · rw [if_pos hguard] at h
        injection h with h1 h2
        subst h2
        match hs : (rstripBy isCRLF cs).dropWhile (fun c => c = ' ') with
        | [] => rw [hs] at hguard; simp at hguard
        | ch :: t =>
          rw [hs] at hguard
          refine ⟨ch, ?_, ?_, ?_⟩
          · set L := (rstripBy isCRLF cs).takeWhile (fun c => decide (c = ' ')) with hL
            have htext : L ++ (ch :: t) = rstripBy isCRLF cs := by
              rw [hL, ← hs]
              exact List.takeWhile_append_dropWhile _ _
            have hlen : L.length + (ch :: t).length = (rstripBy isCRLF cs).length := by
              rw [← List.length_append, htext]
            have hdep : (rstripBy isCRLF cs).length - (ch :: t).length = L.length := by
              omega
            rw [hdep, ← htext, List.get?_append_right (le_refl _)]
            simp
          · by_cases hsp : pyIsSpace ch = true
            · exact hsp
            · rw [List.dropWhile_cons_of_neg hsp] at hguard
              omega
          · have := dropWhile_head_false (fun c => decide (c = ' '))
              (rstripBy isCRLF cs) ch t hs
            simpa using this
      · rw [if_neg hguard] at h
        by_cases h4 : ((rstripBy isCRLF cs).dropWhile (fun c => c = ' ') = ['-']
            || ((rstripBy isCRLF cs).dropWhile (fun c => c = ' ')).take 2 = ['-', ' ']) = true
        · rw [if_pos h4] at h
          exact absurd h (by simp)
        · rw [if_neg h4] at h
          by_cases h5 : ((rstripBy isCRLF cs).dropWhile (fun c => c = ' ') = ['>']
              || ((rstripBy isCRLF cs).dropWhile (fun c => c = ' ')).take 2 = ['>', ' ']) = true
          · rw [if_pos h5] at h
            exact absurd h (by simp)
          · rw [if_neg h5] at h
            by_cases h6 : ((rstripBy isCRLF cs).dropWhile (fun c => c = ' ') = [':']
                || ((rstripBy isCRLF cs).dropWhile (fun c => c = ' ')).take 2 = [':', ' ']) = true
            · rw [if_pos h6] at h
              exact absurd h (by simp)
            · rw [if_neg h6] at h
              by_cases h7 : (((rstripBy isCRLF cs).dropWhile (fun c => c = ' ')).head? = some '['
                  || ((rstripBy isCRLF cs).dropWhile (fun c => c = ' ')).head? = some '\x7b') = true
              · rw [if_pos h7] at h
                exact absurd h (by simp)
              · rw [if_neg h7] at h
                match hscan : obj_item_scan [] ((rstripBy isCRLF cs).dropWhile (fun c => c = ' ')) with
                | some r =>
                  rw [hscan] at h
                  exact absurd h (by simp)
                | Option.none =>
                  rw [hscan] at h
                  exact absurd h (by simp)
/-- C3 (amended): when the stream advances past an invalid line the parse
fails with message `invalid line` (not `invalid indentation` /
`unrecognized line`), carrying the line's number and the column of the
offending character (non-space indent) resp. the indentation depth
(unrecognized); shown at the stream level, at the `loads` level for a
leading invalid line, and on concrete documents for both invalid kinds. -/
theorem C3_amended :
    (∀ (igs : List RawLine) (inv : InvalidLine) (rest : List RawLine),
      (∀ c ∈ igs, raw_ignorable c = true) →
      advance_to_next_content_line (igs ++ RawLine.invalid inv :: rest)
        = .error ⟨"invalid line", some inv.lineno, some inv.colno⟩) ∧
    (∀ (pol : DuplicateFieldBehaviour) (d : String) (igs : List RawLine)
      (inv : InvalidLine) (rest : List RawLine),
      classify_doc d = igs ++ RawLine.invalid inv :: rest →
      (∀ c ∈ igs, raw_ignorable c = true) →
      loads pol d = .error ⟨"invalid line", some inv.lineno, some inv.colno⟩) ∧
    (∀ (cs : List Char) (c : Nat),
      classify_chars cs = .invalid .NON_SPACE_INDENT c →
      ∃ ch, (rstripBy isCRLF cs).get? c = some ch ∧ pyIsSpace ch = true ∧ ch ≠ ' ') ∧
    loads .ERROR "ok: 1\n  \t> bad\n" = .error ⟨"invalid line", some 2, some 2⟩ ∧
    loads .ERROR "- a\ngarbage\n" = .error ⟨"invalid line", some 2, some 0⟩ := by
  refine ⟨?_, ?_, non_space_indent_col, rfl, rfl⟩
  · intro igs inv rest hig
    rw [advance_skip igs _ hig]
    rfl
  · intro pol d igs inv rest hcls hig
    have hcls2 : classify_lines (split_lines d) = igs ++ RawLine.invalid inv :: rest := hcls
    rw [loads, parse]
    simp only [hcls2]
    rw [advance_skip igs _ hig]
    rfl
/-- C2: for a run of object items with nonempty inline values read at the
run's depth: under use-first every key maps to its first occurrence's value;
under use-last to its last occurrence's value while the key order is the
order of first occurrences; under error (the default) a recurrence of a key
raises `duplicate key` at the offending line; plus the literal example under
all three policies. -/
theorem C2_duplicate_policy :
    (∀ (depth fuel : Nat) (items : List Line) (rest : List RawLine)
      (p : Option Line × List RawLine),
      (∀ l ∈ items, is_simple_item depth l = true) →
      advance_to_next_content_line rest = .ok p →
      obj_stop depth p.1 = true →
      items.length < fuel →
      (run_read .USE_FIRST fuel (.objectLoop (stream_of items rest p) depth [])
          = .ok (.obj (build_first items), ⟨p.1, p.2⟩)) ∧
      (∀ k, assoc_lookup k (build_first items)
          = (items.find? (fun l => pair_key l.value == k)).map
              (fun l => Value.str (pair_val l.value))) ∧
      (run_read .USE_LAST fuel (.objectLoop (stream_of items rest p) depth [])
          = .ok (.obj (build_last items), ⟨p.1, p.2⟩)) ∧
      (∀ k, assoc_lookup k (build_last items)
          = (items.reverse.find? (fun l => pair_key l.value == k)).map
              (fun m => Value.str (pair_val m.value))) ∧
      ((build_last items).map Prod.fst = first_occ_keys [] items) ∧
      ((items.map (fun l => pair_key l.value)).Nodup →
        run_read .ERROR fuel (.objectLoop (stream_of items rest p) depth [])
          = .ok (.obj (plain_items items), ⟨p.1, p.2⟩)) ∧
      (∀ (pre : List Line) (bad : Line) (post : List Line),
        items = pre ++ bad :: post →
        (pre.map (fun l => pair_key l.value)).Nodup →
        ((pre.map (fun l => pair_key l.value)).contains (pair_key bad.value) = true) →
        run_read .ERROR fuel (.objectLoop (stream_of items rest p) depth [])
          = .error ⟨"duplicate key", some bad.lineno, some depth⟩)) ∧
    loads .ERROR "a: 1\na: 2\n" = .error ⟨"duplicate key", some 2, some 0⟩ ∧
    loads .USE_FIRST "a: 1\na: 2\n" = .ok (.obj [("a", .str "1")]) ∧
    loads .USE_LAST "a: 1\na: 2\n" = .ok (.obj [("a", .str "2")]) := by
  refine ⟨?_, rfl, rfl, rfl⟩
  intro depth fuel items rest p hsimple hadv hstop hfuel
  refine ⟨?_, ?_, ?_, ?_, ?_, ?_, ?_⟩
  · rw [object_loop_run .USE_FIRST depth items fuel [] rest p hsimple hadv hstop hfuel,
      fold_insert_use_first]
    rfl
  · intro k
    rw [build_first, build_first_lookup]
    rfl
  · rw [object_loop_run .USE_LAST depth items fuel [] rest p hsimple hadv hstop hfuel,
      fold_insert_use_last]
    rfl
  · intro k
    rw [build_last, build_last_lookup]
    match hf : items.reverse.find? (fun l => pair_key l.value == k) with
    | some m => rw [hf]; rfl
    | Option.none => rw [hf]; rfl
  · rw [build_last, build_last_keys]
    simp
  · intro hnd
    rw [object_loop_run .ERROR depth items fuel [] rest p hsimple hadv hstop hfuel,
      fold_insert_error_nodup depth items [] (by intro l _; rfl) hnd]
    simp
  · intro pre bad post hsplit hnd hdup
    rw [object_loop_run .ERROR depth items fuel [] rest p hsimple hadv hstop hfuel, hsplit,
      fold_insert_error_dup depth pre bad post [] (by intro l _; rfl) hnd
        (by simpa using hdup)]
theorem object_loop_tail_stop (on_dup : DuplicateFieldBehaviour) (depth f : Nat)
    (p : Option Line × List RawLine) (data : List (String × Value))
    (hstop : obj_stop depth p.1 = true) (hf : 0 < f) :
    run_read on_dup f (.objectLoop ⟨p.1, p.2⟩ depth data) = .ok (.obj data, ⟨p.1, p.2⟩) := by
  match f, hf with
  | f1 + 1, _ =>
    match hp : p.1 with
    | Option.none => simp [run_read, peek_next, hp]
    | some nl =>
      have hlt : nl.depth < depth := obj_stop_lt depth nl (hp ▸ hstop)
      have hnle : ¬ depth ≤ nl.depth := Nat.not_le.2 hlt
      simp only [run_read, peek_next, hp]
      rw [if_neg hnle]

theorem object_loop_empty_inline (on_dup : DuplicateFieldBehaviour) (depth fuel : Nat)
    (l : Line) (k : String) (rest : List RawLine) (p : Option Line × List RawLine)
    (hk : l.kind = LineType.OBJECT_ITEM) (hd : l.depth = depth)
    (hv : l.value = .pair k Option.none ∨ l.value = .pair k (some ""))
    (hadv : advance_to_next_content_line rest = .ok p)
    (hstop : obj_stop depth p.1 = true) (hfuel : 1 < fuel) :
    run_read on_dup fuel (.objectLoop (stream_of [l] rest p) depth [])
      = .ok (.obj [(k, .str "")], ⟨p.1, p.2⟩) := by
  match fuel, hfuel with
  | f + 1, hfuel =>
    have hnext := stream_next_of l [] rest p (by simp) hadv
    have hpeek : peek_next (stream_of [l] rest p) = some l := by
      simp [stream_of, peek_next]
    have hds : dup_step on_dup l depth [] k (Value.str "") = .ok [(k, Value.str "")] := rfl
    have hloop := object_loop_tail_stop on_dup depth f p [(k, Value.str "")] hstop
      (by omega)
    rcases hv with hv | hv
    · simp only [run_read, hpeek, hk, hd, le_refl, if_true, ne_eq, not_true_eq_false,
        if_false, ite_true, ite_false, hnext, hv]
      simp only [stream_of, peek_next]
      match hp : p.1 with
      | Option.none =>
        simp only [hp, hds]
        exact hp ▸ hloop
      | some nl =>
        have hlt : nl.depth < depth := obj_stop_lt depth nl (hp ▸ hstop)
        have hnlt : ¬ depth < nl.depth := by omega
        simp only [hp]
        rw [if_neg hnlt]
        simp only [hds]
        exact hp ▸ hloop
    · simp only [run_read, hpeek, hk, hd, le_refl, if_true, ne_eq, not_true_eq_false,
        if_false, ite_true, ite_false, hnext, hv]
      rw [if_neg (by decide : ¬ ((!(("" : String).data.isEmpty)) = true))]
      simp only [stream_of, peek_next]
      match hp : p.1 with
      | Option.none =>
        simp only [hp, hds]
        exact hp ▸ hloop
      | some nl =>
        have hlt : nl.depth < depth := obj_stop_lt depth nl (hp ▸ hstop)
        have hnlt : ¬ depth < nl.depth := by omega
        simp only [hp]
        rw [if_neg hnlt]
        simp only [hds]
        exact hp ▸ hloop
/-- C7 (amended): an object-item's inline value is used directly as the key's
String value only when it is nonempty; when the inline value is absent
(bare `KEY:`) or empty (`KEY: `), the parser applies the next-line rule:
empty string when no deeper line follows, a recursively parsed value when one
does (shown concretely for both spellings). -/
theorem C7_amended :
    (∀ (on_dup : DuplicateFieldBehaviour) (depth fuel : Nat) (l : Line) (k v : String)
      (rest : List RawLine) (p : Option Line × List RawLine),
      l.kind = LineType.OBJECT_ITEM → l.depth = depth →
      l.value = .pair k (some v) → v.data.isEmpty = false →
      advance_to_next_content_line rest = .ok p → obj_stop depth p.1 = true → 1 < fuel →
      run_read on_dup fuel (.objectLoop (stream_of [l] rest p) depth [])
        = .ok (.obj [(k, .str v)], ⟨p.1, p.2⟩)) ∧
    (∀ (on_dup : DuplicateFieldBehaviour) (depth fuel : Nat) (l : Line) (k : String)
      (rest : List RawLine) (p : Option Line × List RawLine),
      l.kind = LineType.OBJECT_ITEM → l.depth = depth →
      (l.value = .pair k Option.none ∨ l.value = .pair k (some "")) →
      advance_to_next_content_line rest = .ok p → obj_stop depth p.1 = true → 1 < fuel →
      run_read on_dup fuel (.objectLoop (stream_of [l] rest p) depth [])
        = .ok (.obj [(k, .str "")], ⟨p.1, p.2⟩)) ∧
    loads .ERROR "key:\n  - x\n" = .ok (.obj [("key", .list [.str "x"])]) ∧
    loads .ERROR "key: \n  - x\n" = .ok (.obj [("key", .list [.str "x"])]) := by
  refine ⟨?_, object_loop_empty_inline, rfl, rfl⟩
  intro on_dup depth fuel l k v rest p hk hd hlv hv hadv hstop hfuel
  have hsimple : ∀ m ∈ [l], is_simple_item depth m = true := by
    intro m hm
    rw [List.mem_singleton.1 hm]
    simp [is_simple_item, hk, hd, hlv, hv]
  rw [object_loop_run on_dup depth [l] fuel [] rest p hsimple hadv hstop (by simpa using hfuel)]
  have hfold : fold_insert on_dup depth [] [l] = .ok [(k, Value.str v)] := by
    simp [fold_insert, dup_step, dict_set, pair_key, pair_val, hlv]
  rw [hfold]
/-- Witness instantiating `C2_duplicate_policy` on the two-line run
`a: 1` / `a: 2` at depth 0. -/
theorem C2_duplicate_policy_witness :
    (∀ m ∈ [(⟨"a: 1\n", 1, .OBJECT_ITEM, 0, .pair "a" (some "1")⟩ : Line),
            (⟨"a: 2\n", 2, .OBJECT_ITEM, 0, .pair "a" (some "2")⟩ : Line)],
        is_simple_item 0 m = true) ∧
    run_read .USE_FIRST 3
        (.objectLoop (stream_of
          [⟨"a: 1\n", 1, .OBJECT_ITEM, 0, .pair "a" (some "1")⟩,
           ⟨"a: 2\n", 2, .OBJECT_ITEM, 0, .pair "a" (some "2")⟩]
          [] (Option.none, [])) 0 [])
      = .ok (.obj [("a", .str "1")], ⟨Option.none, []⟩) ∧
    run_read .ERROR 3
        (.objectLoop (stream_of
          [⟨"a: 1\n", 1, .OBJECT_ITEM, 0, .pair "a" (some "1")⟩,
           ⟨"a: 2\n", 2, .OBJECT_ITEM, 0, .pair "a" (some "2")⟩]
          [] (Option.none, [])) 0 [])
      = .error ⟨"duplicate key", some 2, some 0⟩ := by
  have h := C2_duplicate_policy.1 0 3
    [⟨"a: 1\n", 1, .OBJECT_ITEM, 0, .pair "a" (some "1")⟩,
     ⟨"a: 2\n", 2, .OBJECT_ITEM, 0, .pair "a" (some "2")⟩]
    [] (Option.none, []) (by decide) rfl (by decide) (by decide)
  refine ⟨by decide, h.1, ?_⟩
  exact h.2.2.2.2.2.2
    [⟨"a: 1\n", 1, .OBJECT_ITEM, 0, .pair "a" (some "1")⟩]
    ⟨"a: 2\n", 2, .OBJECT_ITEM, 0, .pair "a" (some "2")⟩
    [] rfl (by decide) (by decide)

/-- Witness instantiating `C3_amended`: the stream raises `invalid line` past
a blank line, `loads` reports a leading tab-indented line, and the
non-space-indent column points at the tab. -/
theorem C3_amended_witness :
    advance_to_next_content_line
        [.content ⟨"\n", 1, .BLANK, 0, .absent⟩,
         .invalid ⟨"\tx: y\n", 2, .NON_SPACE_INDENT, 0⟩]
      = .error ⟨"invalid line", some 2, some 0⟩ ∧
    classify_doc "\n\tx: y\n"
      = [.content ⟨"\n", 1, .BLANK, 0, .absent⟩,
         .invalid ⟨"\tx: y\n", 2, .NON_SPACE_INDENT, 0⟩] ∧
    loads .ERROR "\n\tx: y\n" = .error ⟨"invalid line", some 2, some 0⟩ ∧
    (∃ ch, (rstripBy isCRLF "  \tz\n".data).get? 2 = some ch ∧
      pyIsSpace ch = true ∧ ch ≠ ' ') := by
  refine ⟨?_, by decide, ?_, C3_amended.2.2.1 "  \tz\n".data 2 (by decide)⟩
  · exact C3_amended.1 [.content ⟨"\n", 1, .BLANK, 0, .absent⟩]
      ⟨"\tx: y\n", 2, .NON_SPACE_INDENT, 0⟩ [] (by decide)
  · exact C3_amended.2.1 .ERROR "\n\tx: y\n"
      [.content ⟨"\n", 1, .BLANK, 0, .absent⟩]
      ⟨"\tx: y\n", 2, .NON_SPACE_INDENT, 0⟩ [] (by decide) (by decide)

/-- Witness instantiating `C5_multiline_string` on the two-fragment run
`> a` / `> b` at depth 0, and the error case on an over-indented fragment. -/
theorem C5_multiline_string_witness :
    read_string 3
        (stream_of [⟨"> a\n", 1, .STRING, 0, .str "a\n"⟩,
                    ⟨"> b\n", 2, .STRING, 0, .str "b\n"⟩] [] (Option.none, [])) 0
      = .ok (.str "a\nb", ⟨Option.none, []⟩) ∧
    read_string 1
        (stream_of [⟨"  > a\n", 1, .STRING, 2, .str "a\n"⟩] [] (Option.none, [])) 0
      = .error ⟨"invalid indentation", some 1, some 0⟩ := by
  constructor
  · exact C5_multiline_string.1 0 3 [⟨"> a\n", 1, .STRING, 0, .str "a\n"⟩]
      ⟨"> b\n", 2, .STRING, 0, .str "b\n"⟩ [] (Option.none, [])
      (by decide) rfl (by decide) (by decide)
  · exact C5_multiline_string.2.1 0 1 [] ⟨"  > a\n", 1, .STRING, 2, .str "a\n"⟩
      [] (Option.none, []) (by decide) (by decide) (by decide) (by decide) rfl (by decide)

/-- Witness instantiating `C6_multiline_key` on the run `: a` / `: b` at
depth 0: the key concatenates, and with nothing after it the mapping reader
raises `expected value after multiline object key`. -/
theorem C6_multiline_key_witness :
    read_object_key 3
        (stream_of [⟨": a\n", 1, .OBJECT_KEY, 0, .str "a\n"⟩,
                    ⟨": b\n", 2, .OBJECT_KEY, 0, .str "b\n"⟩] [] (Option.none, [])) 0
      = .ok ("a\nb", ⟨Option.none, []⟩) ∧
    run_read .ERROR 6
        (.objectLoop (stream_of [⟨": a\n", 1, .OBJECT_KEY, 0, .str "a\n"⟩,
                    ⟨": b\n", 2, .OBJECT_KEY, 0, .str "b\n"⟩] [] (Option.none, [])) 0 [])
      = .error ⟨"expected value after multiline object key", Option.none, Option.none⟩ := by
  constructor
  · exact C6_multiline_key.1 0 3 [⟨": a\n", 1, .OBJECT_KEY, 0, .str "a\n"⟩]
      ⟨": b\n", 2, .OBJECT_KEY, 0, .str "b\n"⟩ [] (Option.none, [])
      (by decide) rfl (by decide) (by decide)
  · exact C6_multiline_key.2.1 .ERROR 0 6 [⟨": a\n", 1, .OBJECT_KEY, 0, .str "a\n"⟩]
      ⟨": b\n", 2, .OBJECT_KEY, 0, .str "b\n"⟩ [] (Option.none, []) []
      (by decide) rfl (by decide) (by decide) (by decide)

/-- Witness instantiating `C7_amended`: a nonempty inline value is used
directly; an empty inline value falls back to the empty string. -/
theorem C7_amended_witness :
    run_read .ERROR 2
        (.objectLoop (stream_of [⟨"k: v\n", 1, .OBJECT_ITEM, 0, .pair "k" (some "v")⟩]
          [] (Option.none, [])) 0 [])
      = .ok (.obj [("k", .str "v")], ⟨Option.none, []⟩) ∧
    run_read .ERROR 2
        (.objectLoop (stream_of [⟨"k: \n", 1, .OBJECT_ITEM, 0, .pair "k" (some "")⟩]
          [] (Option.none, [])) 0 [])
      = .ok (.obj [("k", .str "")], ⟨Option.none, []⟩) := by
  constructor
  · exact C7_amended.1 .ERROR 0 2 ⟨"k: v\n", 1, .OBJECT_ITEM, 0, .pair "k" (some "v")⟩
      "k" "v" [] (Option.none, []) rfl rfl rfl rfl rfl (by decide) (by decide)
  · exact C7_amended.2.1 .ERROR 0 2 ⟨"k: \n", 1, .OBJECT_ITEM, 0, .pair "k" (some "")⟩
      "k" [] (Option.none, []) rfl rfl (Or.inr rfl) rfl (by decide) (by decide)

/-- Witness instantiating `C10_ignorable_only` on a document of comments and
blank lines. -/
theorem C10_ignorable_only_witness :
    (∀ l ∈ split_lines "# c\n\n   # d\n\t\n", line_ignorable l = true) ∧
    loads .ERROR "# c\n\n   # d\n\t\n" = .ok Value.null :=
  ⟨by decide, (C10_ignorable_only .ERROR "# c\n\n   # d\n\t\n" (by decide)).1⟩

end NT
